import Mathlib

/-!
A shallow embedding of `src/lib.ts`: an interface-version adapter in which
several views, each bound to one version of an evolving field schema, read
and write one shared append-only ledger of field deltas.

Modelling conventions: JS objects linked by `prev` references become an
inductive chain (`Schema.root` is `emptySchema`, whose `prev` and
`migration` are `undefined` in the source); reference equality on schema
objects becomes structural equality; a `console.assert` failure followed by
a crash (walking `prev` past the root, i.e. dereferencing `undefined`)
becomes `Option.none`; the JS `undefined` read of an absent object property
becomes `Option.none`; ledger mutation by `push` becomes explicit state
passing of the delta list.
-/

/-- One structural schema operation, as in the source tagged union
`SchemaMigration`. -/
inductive SchemaMigration
  | addField (fieldName : String)
  | renameField (oldName : String) (newName : String)
  | removeField (fieldName : String)
deriving DecidableEq

/-- Schema versions chained through `prev`. `root` is the distinguished
empty schema; every other version carries the migration producing it from
its predecessor. -/
inductive Schema
  | root
  | node (prev : Schema) (migration : SchemaMigration)
deriving DecidableEq

/-- The source constant `emptySchema`. -/
def emptySchema : Schema := Schema.root

/-- Source method `Schema.addField`. -/
def Schema.addField (s : Schema) (fieldName : String) : Schema :=
  Schema.node s (SchemaMigration.addField fieldName)

/-- Source method `Schema.renameField`. -/
def Schema.renameField (s : Schema) (oldName newName : String) : Schema :=
  Schema.node s (SchemaMigration.renameField oldName newName)

/-- Source method `Schema.removeField`. -/
def Schema.removeField (s : Schema) (fieldName : String) : Schema :=
  Schema.node s (SchemaMigration.removeField fieldName)

/-- The `prev` link, `none` at the root (where the source stores
`undefined`). -/
def Schema.prev? : Schema → Option Schema
  | .root => none
  | .node p _ => some p

/-- Chain depth of a version: number of `prev` links down to the root. -/
def Schema.depth : Schema → Nat
  | .root => 0
  | .node p _ => Schema.depth p + 1

/-- Translation direction, the source's string union
`'downgrade' | 'upgrade'`. -/
inductive Direction
  | upgrade
  | downgrade
deriving DecidableEq

/-- A recorded field mutation, the source tagged union `Delta`, over an
arbitrary value type `V` (the source stores `any`). -/
inductive Delta (V : Type)
  | noOp (version : Schema)
  | set (version : Schema) (prop : String) (value : V)
deriving DecidableEq

/-- The `version` tag carried by every delta. -/
def Delta.version {V : Type} : Delta V → Schema
  | .noOp v => v
  | .set v _ _ => v

/-- The recorded value of a `set` delta, `none` for `no-op`. -/
def Delta.value? {V : Type} : Delta V → Option V
  | .noOp _ => none
  | .set _ _ x => some x

/-- Whether a delta is the `no-op` variant. -/
def Delta.isNoOp {V : Type} : Delta V → Bool
  | .noOp _ => true
  | .set _ _ _ => false

/-- Source `versionInheritsFrom`: walk `prev` links from the descendant,
returning `true` as soon as the ancestor is met, `false` past the root. -/
def versionInheritsFrom : Schema → Schema → Bool
  | .root, ancestorVersion => decide (Schema.root = ancestorVersion)
  | .node p m, ancestorVersion =>
      decide (Schema.node p m = ancestorVersion) || versionInheritsFrom p ancestorVersion

/-- The walk shared by both branches of the source `getVersionRelationship`
loop: the versions from just above `stop` up to and including `v`, oldest
first.  Walking past the root (the source's failed `console.assert(version)`
followed by a `TypeError` on `undefined.prev`) is `none`. -/
def descendChain : Schema → Schema → Option (List Schema)
  | .root, stop =>
      if Schema.root = stop then some [] else none
  | .node p m, stop =>
      if Schema.node p m = stop then some []
      else (descendChain p stop).map (fun l => l ++ [Schema.node p m])

/-- Source `getVersionRelationship`: the ordered history of migration steps
from `sourceVersion` to `targetVersion`.  The upgrade branch builds the
history oldest first by `unshift`; the downgrade branch builds it newest
first by `push`, starting at `sourceVersion` itself and stopping before
`targetVersion`. -/
def getVersionRelationship (sourceVersion targetVersion : Schema) :
    Option (List (Schema × Direction)) :=
  if versionInheritsFrom targetVersion sourceVersion then
    (descendChain targetVersion sourceVersion).map
      (fun l => l.map (fun v => (v, Direction.upgrade)))
  else
    (descendChain sourceVersion targetVersion).map
      (fun l => (l.map (fun v => (v, Direction.downgrade))).reverse)

/-- Source `upgradeOrDowngradeDelta`, including the fallthrough from the
`addField` arm into the `removeField` arm of the inner switch (the
`addField` arm has no `break`, so when its `downgrade` test fails the
`removeField` arm's `upgrade` test runs against the same `fieldName`).
The source's `console.assert` calls log without stopping execution and are
not modelled.  A step at the root (whose `migration` is `undefined`) is
never produced by `getVersionRelationship`; the source would crash there on
a `set` delta and we extend by the final pass-through return. -/
def upgradeOrDowngradeDelta {V : Type} (delta : Delta V) (direction : Direction)
    (version : Schema) : Delta V :=
  match delta with
  | .noOp _ => Delta.noOp version
  | .set _ prop value =>
      match version with
      | .root => Delta.set Schema.root prop value
      | .node _ migration =>
          match migration with
          | .addField fieldName =>
              if direction = Direction.downgrade ∧ prop = fieldName then
                Delta.noOp version
              else if direction = Direction.upgrade ∧ prop = fieldName then
                Delta.noOp version
              else
                Delta.set version prop value
          | .removeField fieldName =>
              if direction = Direction.upgrade ∧ prop = fieldName then
                Delta.noOp version
              else
                Delta.set version prop value
          | .renameField oldName newName =>
              if direction = Direction.upgrade ∧ prop = oldName then
                Delta.set version newName value
              else if direction = Direction.downgrade ∧ prop = newName then
                Delta.set version oldName value
              else
                Delta.set version prop value

/-- Source `translateDelta`: fold `upgradeOrDowngradeDelta` over the
resolved history; `none` when the resolver fails. -/
def translateDelta {V : Type} (delta : Delta V) (targetVersion : Schema) :
    Option (Delta V) :=
  (getVersionRelationship delta.version targetVersion).map
    (fun history =>
      history.foldl (fun d step => upgradeOrDowngradeDelta d step.2 step.1) delta)

/-- Source `applyDelta`: `no-op` leaves the instance state unchanged, `set`
inserts or overwrites one property. -/
def applyDelta {V : Type} (state : String → Option V) (delta : Delta V) :
    String → Option V :=
  match delta with
  | .noOp _ => state
  | .set _ prop value => fun k => if k = prop then some value else state k

/-- Source `renderLedgerAsVersion`: starting from the empty object, translate
each delta of the ledger, in ledger order, into the requested version and
apply it; `none` when any translation fails. -/
def renderLedgerAsVersion {V : Type} (ledger : List (Delta V)) (version : Schema) :
    Option (String → Option V) :=
  ledger.foldlM
    (fun state delta => (translateDelta delta version).map (fun d => applyDelta state d))
    (fun _ => none)

/-- A JS property key reaching a proxy trap: a string, or a non-string key
(symbols; modelled with a numeric identity). -/
inductive PropertyKey
  | str (s : String)
  | sym (id : Nat)
deriving DecidableEq

/-- The `push` performed by the source `Handler.set` on a string key: append
one `set` delta tagged with the view's version. -/
def writeField {V : Type} (ledger : List (Delta V)) (version : Schema)
    (prop : String) (value : V) : List (Delta V) :=
  ledger ++ [Delta.set version prop value]

/-- Source `Handler.set`: a non-string property key throws
`Cannot set non-string property key` before the ledger `push` runs, so the
failing call appends nothing; a string key appends one tagged `set` delta
and the new ledger is returned. -/
def Handler.set {V : Type} (ledger : List (Delta V)) (version : Schema)
    (prop : PropertyKey) (value : V) : Except String (List (Delta V)) :=
  match prop with
  | .str s => Except.ok (writeField ledger version s value)
  | .sym _ => Except.error "Cannot set non-string property key"

/-- Source `Handler.get` on a string property (the `ledgerSymbol` arm is the
internal handle and not a field read): render the ledger as the view's
version and index the state. -/
def readField {V : Type} (ledger : List (Delta V)) (version : Schema)
    (prop : String) : Option (Option V) :=
  (renderLedgerAsVersion ledger version).map (fun state => state prop)

/-- Worked order-sensitivity scenario, version 1: the empty schema with
`fieldX` and `fieldY` added. -/
def orderScenarioVersion1 : Schema :=
  (emptySchema.addField "fieldX").addField "fieldY"

/-- Worked order-sensitivity scenario, version 2:
`version1.removeField("fieldY").renameField("fieldX","fieldY").addField("fieldX")`. -/
def orderScenarioVersion2 : Schema :=
  ((orderScenarioVersion1.removeField "fieldY").renameField "fieldX" "fieldY").addField "fieldX"

/-- Worked scenario ledger after `view1.fieldX = "A"; view1.fieldY = "B"`
on an instance created empty. -/
def orderScenarioLedger1 : List (Delta String) :=
  writeField (writeField [] orderScenarioVersion1 "fieldX" "A")
    orderScenarioVersion1 "fieldY" "B"

/-- Worked scenario ledger after additionally
`view2.fieldX = "C"; view2.fieldY = "D"`. -/
def orderScenarioLedger2 : List (Delta String) :=
  writeField (writeField orderScenarioLedger1 orderScenarioVersion2 "fieldX" "C")
    orderScenarioVersion2 "fieldY" "D"

/-- The lineage of a version: itself and all its ancestors, newest first,
down to the root. -/
def lineage : Schema → List Schema
  | .root => [Schema.root]
  | .node p m => Schema.node p m :: lineage p

/-- Chain distance from a descendant down to an ancestor: the number of
`prev` links followed (meaningful when the ancestor lies on the
descendant's lineage). -/
def chainDistance : Schema → Schema → Nat
  | .root, _ => 0
  | .node p m, a => if Schema.node p m = a then 0 else chainDistance p a + 1

/-! ### Basic lemmas about single translation steps -/

/-- Every translation step stamps the step's version on the result,
whatever branch it takes. -/
theorem upgradeOrDowngradeDelta_version {V : Type} (d : Delta V)
    (dir : Direction) (v : Schema) :
    (upgradeOrDowngradeDelta d dir v).version = v := by
  cases d with
  | noOp _ => rfl
  | set u p x =>
      cases v with
      | root => rfl
      | node q m =>
          cases m <;> simp only [upgradeOrDowngradeDelta] <;>
            (repeat' split) <;> rfl

/-- A `no-op` delta passes through a step untouched apart from its version
tag. -/
theorem upgradeOrDowngradeDelta_noOp {V : Type} (u : Schema)
    (dir : Direction) (v : Schema) :
    upgradeOrDowngradeDelta (Delta.noOp u : Delta V) dir v = Delta.noOp v := rfl

/-- Folding any list of translation steps from a `no-op` delta stays a
`no-op`. -/
theorem foldl_steps_noOp {V : Type} (u : Schema) (steps : List (Schema × Direction)) :
    ∃ w, steps.foldl (fun d step => upgradeOrDowngradeDelta d step.2 step.1)
      (Delta.noOp u : Delta V) = Delta.noOp w := by
  induction steps generalizing u with
  | nil => exact ⟨u, rfl⟩
  | cons s rest ih => simpa using ih s.1

/-! ### Claim theorems, part one -/

/-- C1: evaluating the source at the failing input.  A `Set` delta on field
`x`, translated one step in the `upgrade` direction through a version whose
migration is `AddField("x")`, collapses to `NoOp` — the missing `break`
lets the `addField` arm fall into the `removeField` arm, whose upgrade test
matches — although the spec's rule table says the upgrade direction leaves
the field unaffected, and the source's own
`console.assert(delta.prop !== migration.fieldName)` fails at this input. -/
theorem addField_upgrade_fallthrough_collapses_to_noOp :
    upgradeOrDowngradeDelta (Delta.set emptySchema "x" (0 : Nat)) Direction.upgrade
      (emptySchema.addField "x") = Delta.noOp (emptySchema.addField "x") := by
  decide

/-- C2: the worked order-sensitivity scenario.  With version1 holding
`fieldX`/`fieldY` and version2 obtained by removing `fieldY`, renaming
`fieldX` to `fieldY` and adding a fresh `fieldX`, the reads after the two
write stages are exactly as the spec lists them. -/
theorem order_sensitivity_worked_scenario :
    readField orderScenarioLedger1 orderScenarioVersion2 "fieldX" = some none ∧
    readField orderScenarioLedger1 orderScenarioVersion2 "fieldY" = some (some "A") ∧
    readField orderScenarioLedger2 orderScenarioVersion1 "fieldX" = some (some "D") ∧
    readField orderScenarioLedger2 orderScenarioVersion1 "fieldY" = some (some "B") ∧
    readField orderScenarioLedger2 orderScenarioVersion2 "fieldX" = some (some "C") ∧
    readField orderScenarioLedger2 orderScenarioVersion2 "fieldY" = some (some "D") := by
  exact ⟨by decide, by decide, by decide, by decide, by decide, by decide⟩

/-- C9: `Handler.set` with a non-string property key throws
`Cannot set non-string property key` before the ledger `push` runs: the
call yields the error and no updated ledger, so no delta is appended and
every caller-held ledger reference is unchanged. -/
theorem set_non_string_key_fails_without_append {V : Type}
    (ledger : List (Delta V)) (version : Schema) (id : Nat) (value : V) :
    Handler.set ledger version (PropertyKey.sym id) value =
      Except.error "Cannot set non-string property key" := rfl

/-- C10: a single translation step never alters the recorded value of a
`Set` delta: the result is either a `NoOp`, or still carries the original
value (possibly under a rewritten field name and new version tag). -/
theorem translation_preserves_set_value {V : Type} (u : Schema) (p : String)
    (x : V) (dir : Direction) (v : Schema) :
    upgradeOrDowngradeDelta (Delta.set u p x) dir v = Delta.noOp v ∨
    (upgradeOrDowngradeDelta (Delta.set u p x) dir v).value? = some x := by
  cases v with
  | root => right; rfl
  | node q m =>
      cases m <;> simp only [upgradeOrDowngradeDelta] <;> (repeat' split) <;>
        simp [Delta.value?]

/-- C8: `NoOp` deltas are inert: replaying one leaves the folded state
mapping unchanged, a single translation step leaves it a `NoOp` with only
the version tag advancing, and a fold over any list of steps therefore
keeps it a `NoOp`. -/
theorem noOp_replay_and_translation_invariant {V : Type} :
    (∀ (state : String → Option V) (u : Schema),
        applyDelta state (Delta.noOp u) = state) ∧
    (∀ (u : Schema) (dir : Direction) (v : Schema),
        upgradeOrDowngradeDelta (Delta.noOp u : Delta V) dir v = Delta.noOp v) ∧
    (∀ (u : Schema) (steps : List (Schema × Direction)),
        (steps.foldl (fun d step => upgradeOrDowngradeDelta d step.2 step.1)
          (Delta.noOp u : Delta V)).isNoOp = true) := by
  refine ⟨fun _ _ => rfl, fun _ _ _ => rfl, fun u steps => ?_⟩
  obtain ⟨w, hw⟩ := foldl_steps_noOp u steps
  rw [hw]
  rfl

/-- C6, counterexample: translating a `Set` delta recorded at
`emptySchema.addField "x"` down to the target `emptySchema` resolves to the
one-step downgrade path, yet the resulting delta's version tag is the step
version `emptySchema.addField "x"` — the child of the target — and not the
target itself, contradicting the claimed full-path invariant. -/
theorem downgrade_final_version_tag_not_target :
    (translateDelta (Delta.set (emptySchema.addField "x") "y" (0 : Nat))
        emptySchema).map Delta.version = some (emptySchema.addField "x") ∧
    emptySchema.addField "x" ≠ emptySchema := by
  refine ⟨by decide, by decide⟩

/-! ### Structural lemmas about the version chain and the resolver -/

/-- A version inherits from itself. -/
theorem versionInheritsFrom_refl (v : Schema) : versionInheritsFrom v v = true := by
  cases v <;> simp [versionInheritsFrom]

/-- The walk from a version to itself is empty. -/
theorem descendChain_self (v : Schema) : descendChain v v = some [] := by
  cases v <;> simp [descendChain]

/-- Resolving a version against itself yields the empty history. -/
theorem getVersionRelationship_self (v : Schema) :
    getVersionRelationship v v = some [] := by
  simp [getVersionRelationship, versionInheritsFrom_refl, descendChain_self]

/-- Translating a delta toward its own version is the empty fold. -/
theorem translateDelta_at_own_version {V : Type} (d : Delta V) :
    translateDelta d d.version = some d := by
  simp [translateDelta, getVersionRelationship_self]

/-- When the ancestor test fails, the walk falls off the root. -/
theorem descendChain_none_of_not_inherits (v a : Schema)
    (h : versionInheritsFrom v a = false) : descendChain v a = none := by
  induction v with
  | root =>
      simp only [versionInheritsFrom, decide_eq_false_iff_not] at h
      simp [descendChain, h]
  | node p m ih =>
      simp only [versionInheritsFrom, Bool.or_eq_false_iff,
        decide_eq_false_iff_not] at h
      simp [descendChain, h.1, ih h.2]

/-- When the ancestor test succeeds, the walk is exactly the strict part of
the descendant's lineage above the ancestor, oldest first. -/
theorem descendChain_eq_takeWhile (v a : Schema)
    (h : versionInheritsFrom v a = true) :
    descendChain v a = some (((lineage v).takeWhile (fun u => u != a)).reverse) := by
  induction v with
  | root =>
      simp only [versionInheritsFrom, decide_eq_true_eq] at h
      subst h
      simp [descendChain, lineage, List.takeWhile]
  | node p m ih =>
      simp only [versionInheritsFrom, Bool.or_eq_true, decide_eq_true_eq] at h
      by_cases he : Schema.node p m = a
      · subst he
        simp [descendChain, lineage, List.takeWhile]
      · have hp : versionInheritsFrom p a = true := by
          rcases h with h | h
          · exact absurd h he
          · exact h
        have hbne : (Schema.node p m != a) = true := by
          simp [bne_iff_ne, he]
        simp [descendChain, he, ih hp, lineage, List.takeWhile, hbne]

/-- The length of the strict lineage segment equals the chain distance. -/
theorem takeWhile_length_eq_chainDistance (v a : Schema)
    (h : versionInheritsFrom v a = true) :
    ((lineage v).takeWhile (fun u => u != a)).length = chainDistance v a := by
  induction v with
  | root =>
      simp only [versionInheritsFrom, decide_eq_true_eq] at h
      subst h
      simp [lineage, List.takeWhile, chainDistance]
  | node p m ih =>
      simp only [versionInheritsFrom, Bool.or_eq_true, decide_eq_true_eq] at h
      by_cases he : Schema.node p m = a
      · subst he
        simp [lineage, List.takeWhile, chainDistance]
      · have hp : versionInheritsFrom p a = true := by
          rcases h with h | h
          · exact absurd h he
          · exact h
        have hbne : (Schema.node p m != a) = true := by
          simp [bne_iff_ne, he]
        simp [lineage, List.takeWhile, hbne, chainDistance, he, ih hp]

/-- An empty walk means the two ends coincide. -/
theorem descendChain_some_nil (v a : Schema) (h : descendChain v a = some []) :
    v = a := by
  cases v with
  | root =>
      by_cases he : Schema.root = a
      · exact he
      · simp [descendChain, he] at h
  | node p m =>
      by_cases he : Schema.node p m = a
      · exact he
      · simp [descendChain, he] at h

/-- A nonempty walk ends at the descendant it started from. -/
theorem descendChain_getLast (v a : Schema) (l : List Schema)
    (h : descendChain v a = some l) (hne : l ≠ []) : l.getLast? = some v := by
  cases v with
  | root =>
      by_cases he : Schema.root = a
      · simp [descendChain, he] at h
        simp [← h] at hne
      · simp [descendChain, he] at h
  | node p m =>
      by_cases he : Schema.node p m = a
      · simp [descendChain, he] at h
        simp [← h] at hne
      · simp only [descendChain, he, if_false, ite_false, Option.map_eq_some'] at h
        obtain ⟨lp, _, hl⟩ := h
        rw [← hl]
        exact List.getLast?_concat lp

/-- A nonempty walk begins at the immediate descendant of the stop
version. -/
theorem descendChain_head (v a : Schema) (x : Schema) (xs : List Schema)
    (h : descendChain v a = some (x :: xs)) :
    ∃ m2, x = Schema.node a m2 := by
  induction v generalizing x xs with
  | root =>
      by_cases he : Schema.root = a <;> simp [descendChain, he] at h
  | node p m ih =>
      by_cases he : Schema.node p m = a
      · simp [descendChain, he] at h
      · simp only [descendChain, he, if_false, ite_false, Option.map_eq_some'] at h
        obtain ⟨lp, hlp, hl⟩ := h
        cases lp with
        | nil =>
            have hpa : p = a := descendChain_some_nil p a hlp
            simp only [List.nil_append] at hl
            injection hl with h1 h2
            exact ⟨m, by rw [← h1, hpa]⟩
        | cons y ys =>
            simp only [List.cons_append] at hl
            injection hl with h1 h2
            obtain ⟨m2, hm2⟩ := ih y ys hlp
            exact ⟨m2, by rw [← h1, hm2]⟩

/-- Inheriting implies no greater depth for the ancestor. -/
theorem depth_le_of_inherits (v a : Schema)
    (h : versionInheritsFrom v a = true) : a.depth ≤ v.depth := by
  induction v with
  | root =>
      simp only [versionInheritsFrom, decide_eq_true_eq] at h
      subst h
      exact Nat.le_refl _
  | node p m ih =>
      simp only [versionInheritsFrom, Bool.or_eq_true, decide_eq_true_eq] at h
      rcases h with h | h
      · subst h
        exact Nat.le_refl _
      · exact Nat.le_trans (ih h) (Nat.le_succ _)

/-- No version equals its own child. -/
theorem node_ne_prev (p : Schema) (m : SchemaMigration) : Schema.node p m ≠ p := by
  intro h
  have := congrArg Schema.depth h
  simp only [Schema.depth] at this
  omega

/-- No version inherits from its own child. -/
theorem not_inherits_child (p : Schema) (m : SchemaMigration) :
    versionInheritsFrom p (Schema.node p m) = false := by
  cases hb : versionInheritsFrom p (Schema.node p m) with
  | false => rfl
  | true =>
      have := depth_le_of_inherits p (Schema.node p m) hb
      simp only [Schema.depth] at this
      omega

/-- Resolving from a child down to its immediate parent is the single
downgrade step at the child. -/
theorem getVersionRelationship_child (T : Schema) (m : SchemaMigration) :
    getVersionRelationship (Schema.node T m) T =
      some [(Schema.node T m, Direction.downgrade)] := by
  simp [getVersionRelationship, not_inherits_child, descendChain,
    node_ne_prev, descendChain_self]

/-- Re-applying one downgrade step at the same version is idempotent. -/
theorem downgrade_step_idem {V : Type} (d : Delta V) (v : Schema) :
    upgradeOrDowngradeDelta (upgradeOrDowngradeDelta d Direction.downgrade v)
      Direction.downgrade v = upgradeOrDowngradeDelta d Direction.downgrade v := by
  cases d with
  | noOp u => rfl
  | set u p x =>
      cases v with
      | root => rfl
      | node q m =>
          cases m with
          | addField f =>
              by_cases hp : p = f <;> simp [upgradeOrDowngradeDelta, hp]
          | removeField f =>
              simp [upgradeOrDowngradeDelta]
          | renameField o n =>
              by_cases hp : p = n <;> by_cases hon : o = n <;>
                simp [upgradeOrDowngradeDelta, hp, hon]

/-- Decomposition of a successful full translation: either the path was
empty and the delta is returned unchanged, or the last step applied was an
upgrade at the target itself, or a downgrade at an immediate child of the
target. -/
theorem translateDelta_last_step {V : Type} (d : Delta V) (T : Schema)
    (e : Delta V) (h : translateDelta d T = some e) :
    (d.version = T ∧ e = d) ∨
    (∃ d2, e = upgradeOrDowngradeDelta d2 Direction.upgrade T) ∨
    (∃ m2 d2, e = upgradeOrDowngradeDelta d2 Direction.downgrade (Schema.node T m2)) := by
  unfold translateDelta getVersionRelationship at h
  by_cases hin : versionInheritsFrom T d.version
  · simp only [hin, if_true, Option.map_map, Option.map_eq_some'] at h
    obtain ⟨l, hl, he⟩ := h
    rcases List.eq_nil_or_concat l with rfl | ⟨L, b, rfl⟩
    · left
      exact ⟨(descendChain_some_nil T d.version hl).symm, he.symm⟩
    · right; left
      have hb : b = T := by
        have hlast := descendChain_getLast T d.version (L.concat b) hl (by simp)
        simp only [List.concat_eq_append, List.getLast?_concat,
          Option.some.injEq] at hlast
        exact hlast
      subst hb
      simp only [Function.comp, List.concat_eq_append, List.map_append,
        List.map_cons, List.map_nil, List.foldl_append, List.foldl_cons,
        List.foldl_nil] at he
      exact ⟨_, he.symm⟩
  · rw [if_neg hin] at h
    simp only [Option.map_map, Option.map_eq_some'] at h
    obtain ⟨l, hl, he⟩ := h
    cases l with
    | nil =>
        exfalso
        have : d.version = T := descendChain_some_nil d.version T hl
        rw [this, versionInheritsFrom_refl] at hin
        exact hin rfl
    | cons x xs =>
        right; right
        obtain ⟨m2, rfl⟩ := descendChain_head d.version T x xs hl
        simp only [Function.comp, List.map_cons, List.reverse_cons,
          List.foldl_append, List.foldl_cons, List.foldl_nil] at he
        exact ⟨m2, _, he.symm⟩

/-- Splitting a render at the last appended delta. -/
theorem renderLedgerAsVersion_append_one {V : Type} (ledger : List (Delta V))
    (version : Schema) (d : Delta V) :
    renderLedgerAsVersion (ledger ++ [d]) version =
      (renderLedgerAsVersion ledger version).bind
        (fun state => (translateDelta d version).map
          (fun dd => applyDelta state dd)) := by
  unfold renderLedgerAsVersion
  rw [List.foldlM_append]
  cases hrender :
      ledger.foldlM (m := Option)
        (fun state delta =>
          (translateDelta delta version).map (fun dd => applyDelta state dd))
        (fun _ => none) with
  | none => rfl
  | some state =>
      simp only [Option.bind_eq_bind, Option.some_bind, List.foldlM_cons,
        List.foldlM_nil]
      cases translateDelta d version <;> rfl

/-! ### Claim theorems, part two -/

/-- C3: round-trip identity.  On any view whose render of the existing
ledger succeeds, appending a write of value `x` to field `f` through the
view and immediately reading field `f` through the same view returns
`x`. -/
theorem write_then_read_roundtrip {V : Type} (ledger : List (Delta V))
    (version : Schema) (f : String) (x : V) (state : String → Option V)
    (h : renderLedgerAsVersion ledger version = some state) :
    readField (writeField ledger version f x) version f = some (some x) := by
  unfold readField writeField
  rw [renderLedgerAsVersion_append_one, h]
  have ht : translateDelta (Delta.set version f x) version =
      some (Delta.set version f x) := translateDelta_at_own_version _
  simp [ht, applyDelta]

/-- Witness for C3 at the empty ledger over the empty schema. -/
theorem write_then_read_roundtrip_witness :
    renderLedgerAsVersion ([] : List (Delta Nat)) emptySchema =
      some (fun _ => none) ∧
    readField (writeField ([] : List (Delta Nat)) emptySchema "a" 0)
      emptySchema "a" = some (some 0) :=
  ⟨rfl, write_then_read_roundtrip [] emptySchema "a" 0 (fun _ => none) rfl⟩

/-- C4: when neither version inherits from the other, the resolver fails
(the source's walk falls off the root: a failed assertion followed by a
crash, modelled as `none`) and never returns a path. -/
theorem unrelated_versions_resolver_fails (s t : Schema)
    (h1 : versionInheritsFrom t s = false)
    (h2 : versionInheritsFrom s t = false) :
    getVersionRelationship s t = none := by
  rw [getVersionRelationship, if_neg (by simp [h1]),
    descendChain_none_of_not_inherits s t h2]
  rfl

/-- Witness for C4: two single-migration branches off the empty schema. -/
theorem unrelated_versions_resolver_fails_witness :
    getVersionRelationship (emptySchema.addField "a") (emptySchema.addField "b") =
      none :=
  unrelated_versions_resolver_fails (emptySchema.addField "a")
    (emptySchema.addField "b") (by decide) (by decide)

/-- C5: characterization of resolved paths.  When the target inherits from
the source, the path is the strict segment of the target's lineage above
the source, oldest first, every entry tagged `upgrade`; when instead the
source inherits from the target, the path is the strict segment of the
source's lineage above the target, newest first, every entry tagged
`downgrade`; in both cases the path length is the chain distance between
the two versions. -/
theorem resolver_path_characterization (s t : Schema) :
    (versionInheritsFrom t s = true →
        getVersionRelationship s t =
          some ((((lineage t).takeWhile (fun v => v != s)).reverse).map
            (fun v => (v, Direction.upgrade))) ∧
        ((((lineage t).takeWhile (fun v => v != s)).reverse).map
            (fun v => (v, Direction.upgrade))).length = chainDistance t s) ∧
    (versionInheritsFrom t s = false → versionInheritsFrom s t = true →
        getVersionRelationship s t =
          some (((lineage s).takeWhile (fun v => v != t)).map
            (fun v => (v, Direction.downgrade))) ∧
        (((lineage s).takeWhile (fun v => v != t)).map
            (fun v => (v, Direction.downgrade))).length = chainDistance s t) := by
  constructor
  · intro h
    constructor
    · rw [getVersionRelationship, if_pos (by simp [h]),
        descendChain_eq_takeWhile t s h]
      rfl
    · simp [takeWhile_length_eq_chainDistance t s h]
  · intro h1 h2
    constructor
    · rw [getVersionRelationship, if_neg (by simp [h1]),
        descendChain_eq_takeWhile s t h2]
      simp [List.map_reverse]
    · simp [takeWhile_length_eq_chainDistance s t h2]

/-- Witness for C5: one upgrade resolution and one downgrade resolution,
each one migration step long. -/
theorem resolver_path_characterization_witness :
    (getVersionRelationship emptySchema (emptySchema.addField "x") =
        some ((((lineage (emptySchema.addField "x")).takeWhile
          (fun v => v != emptySchema)).reverse).map
            (fun v => (v, Direction.upgrade))) ∧
      ((((lineage (emptySchema.addField "x")).takeWhile
          (fun v => v != emptySchema)).reverse).map
            (fun v => (v, Direction.upgrade))).length =
        chainDistance (emptySchema.addField "x") emptySchema) ∧
    (getVersionRelationship (emptySchema.addField "x") emptySchema =
        some (((lineage (emptySchema.addField "x")).takeWhile
          (fun v => v != emptySchema)).map
            (fun v => (v, Direction.downgrade))) ∧
      (((lineage (emptySchema.addField "x")).takeWhile
          (fun v => v != emptySchema)).map
            (fun v => (v, Direction.downgrade))).length =
        chainDistance (emptySchema.addField "x") emptySchema) :=
  ⟨(resolver_path_characterization emptySchema (emptySchema.addField "x")).1
      (by decide),
    (resolver_path_characterization (emptySchema.addField "x") emptySchema).2
      (by decide) (by decide)⟩

/-- C6, amended: every single translation step stamps the step's version on
the result regardless of whether a rewrite occurred; after a full resolved
path the delta's version tag equals the last step's version, which is the
target for empty or upgrade paths but the immediate child of the target for
nonempty downgrade paths (the tag's `prev` is then the target). -/
theorem version_tag_after_each_step_and_full_path {V : Type} :
    (∀ (d : Delta V) (dir : Direction) (v : Schema),
        (upgradeOrDowngradeDelta d dir v).version = v) ∧
    (∀ (d : Delta V) (T : Schema) (e : Delta V), translateDelta d T = some e →
        e.version = T ∨ e.version.prev? = some T) := by
  refine ⟨upgradeOrDowngradeDelta_version, fun d T e h => ?_⟩
  rcases translateDelta_last_step d T e h with ⟨hv, rfl⟩ | ⟨d2, rfl⟩ | ⟨m2, d2, rfl⟩
  · exact Or.inl hv
  · exact Or.inl (upgradeOrDowngradeDelta_version d2 Direction.upgrade T)
  · right
    rw [upgradeOrDowngradeDelta_version d2 Direction.downgrade (Schema.node T m2)]
    rfl

/-- Witness for C6's amended claim: a one-step downgrade whose final tag is
the child of the target. -/
theorem version_tag_after_each_step_and_full_path_witness :
    (Delta.set (emptySchema.addField "x") "y" (0 : Nat)).version = emptySchema ∨
    (Delta.set (emptySchema.addField "x") "y" (0 : Nat)).version.prev? =
      some emptySchema :=
  (version_tag_after_each_step_and_full_path (V := Nat)).2
    (Delta.set (emptySchema.addField "x") "y" 0) emptySchema
    (Delta.set (emptySchema.addField "x") "y" 0) (by decide)

/-- C7: idempotent path translation.  A delta already translated toward a
target version translates toward the same target to itself: the second
call is a no-op. -/
theorem translate_to_target_idempotent {V : Type} (d : Delta V) (T : Schema)
    (e : Delta V) (h : translateDelta d T = some e) :
    translateDelta e T = some e := by
  have hown : ∀ (d3 : Delta V), d3.version = T → translateDelta d3 T = some d3 := by
    intro d3 h3
    rw [← h3]
    exact translateDelta_at_own_version d3
  rcases translateDelta_last_step d T e h with ⟨hv, he⟩ | ⟨d2, he⟩ | ⟨m2, d2, he⟩
  · rw [he]
    exact hown d (he ▸ hv)
  · rw [he]
    exact hown _ (upgradeOrDowngradeDelta_version d2 Direction.upgrade T)
  · rw [he]
    unfold translateDelta
    rw [upgradeOrDowngradeDelta_version d2 Direction.downgrade (Schema.node T m2),
      getVersionRelationship_child]
    simp only [List.foldl_cons, List.foldl_nil, Option.map_some']
    rw [downgrade_step_idem]

/-- Witness for C7: a delta already expressed one downgrade step past its
recording version translates to itself again. -/
theorem translate_to_target_idempotent_witness :
    translateDelta (Delta.set (emptySchema.addField "x") "y" (0 : Nat))
      emptySchema = some (Delta.set (emptySchema.addField "x") "y" 0) :=
  translate_to_target_idempotent
    (Delta.set (emptySchema.addField "x") "y" 0) emptySchema
    (Delta.set (emptySchema.addField "x") "y" 0) (by decide)
